import Mathlib

/-!
# Verification of the `bevy_impulse` operation/lifecycle engine

A shallow embedding, in Lean 4, of the parts of the repository that the
verified claims are about:

* `src/src/cancel.rs` — `Cancellation`, `CancellationCause`, `Cancel`,
  `Cancel::trigger`, `UnhandledErrors`;
* `src/src/disposal.rs` — `Disposal`, `DisposalCause`, `ManageDisposal`
  (`emit_disposal`, `clear_disposals`), `DisposalStorage`;
* `src/src/operation/operate_service.rs` — `cancel_service`,
  `OperateService::is_reachable`;
* `src/src/operation/operate_task.rs` — `OperateTask::execute`,
  `OperateTask::cleanup`, `ActiveTasksStorage::cleanup`;
* `src/src/buffer/buffered.rs` — the `Buffered` instance for pairs;
* `src/src/service.rs` — `DeliveryInstructions`;
* `src/bevy_services/src/promise.rs` — `Promise` / `PromiseState`;
* `src/bevy_services/src/cancel.rs` — the legacy cancellation cause set
  (`JoinCancelled`, `RaceCancelled`, `ServiceUnavailable`, ...).

Entities of the bevy attribute store are modelled as `Nat`.  Rust `Backtrace`
values are modelled as `Option Unit` (we only track presence), and
`anyhow::Error` reasons as `Option String`.  `Arc` sharing is not observable
in a pure embedding, so `Arc<T>` is modelled as `T`.
-/

set_option autoImplicit false

namespace BevyImpulse

/-- An opaque identifier into the attribute store (`bevy::prelude::Entity`). -/
abbrev Entity := Nat

/-- A captured backtrace; we only track whether one was captured. -/
abbrev Backtrace := Unit

/-- `OperationError` from the operation module: either the graph structure is
broken (missing node/component), or an operation was triggered without its
required input being ready. -/
inductive OperationError where
  | Broken (backtrace : Option Backtrace)
  | NotReady
deriving Repr, DecidableEq

/-! ## Cancellation and disposal records (`src/src/cancel.rs`, `src/src/disposal.rs`)

`CancellationCause::Unreachable` holds a `Vec<Disposal>` and
`DisposalCause::Scope` holds a `Cancellation`, so the two families are
mutually inductive. Structure payloads (`Unreachability`, `Filtered`,
`Supplanted`, `Broken`, …) are flattened into constructor fields. -/

mutual

/-- `CancellationCause` from `src/src/cancel.rs` (lines 70-102). -/
inductive CancellationCause where
  /-- The promise taken by the requester was dropped without being detached. -/
  | TargetDropped (entity : Entity)
  /-- No terminating node of the workflow is reachable anymore
  (`Unreachability { scope, session, disposals }`). -/
  | Unreachable (scope : Entity) (session : Entity) (disposals : List Disposal)
  /-- A filtering node triggered a cancellation
  (`Filtered { filtered_at_node, reason }`). -/
  | Filtered (filtered_at_node : Entity) (reason : Option String)
  /-- A new labeled request supplanted this one
  (`Supplanted { supplanted_at_node, supplanted_by_node, supplanting_session }`). -/
  | Supplanted (supplanted_at_node : Entity) (supplanted_by_node : Entity)
      (supplanting_session : Entity)
  /-- The mutex inside a `Promise` was poisoned. -/
  | PoisonedMutexInPromise
  /-- A node in the workflow was broken (`Broken { node, backtrace }`). -/
  | Broken (node : Entity) (backtrace : Option Backtrace)

/-- `Cancellation` from `src/src/cancel.rs` (lines 36-42): a cause plus the
cancellations that occurred inside cancellation workflows triggered by it. -/
inductive Cancellation where
  | mk (cause : CancellationCause) (while_cancelling : List Cancellation)

/-- `Disposal` from `src/src/disposal.rs` (lines 33-36). -/
inductive Disposal where
  | mk (cause : DisposalCause)

/-- `DisposalCause` from `src/src/disposal.rs` (lines 67-92). -/
inductive DisposalCause where
  /-- An earlier request was supplanted by a new labeled request. -/
  | Supplanted (supplanted_at_node : Entity) (supplanted_by_node : Entity)
      (supplanting_session : Entity)
  /-- A node filtered out a response. -/
  | Filtered (filtered_at_node : Entity) (reason : Option String)
  /-- A node disposed of one of its output branches
  (`DisposedBranch { branched_at_node, disposed_for_target, reason }`). -/
  | Branching (branched_at_node : Entity) (disposed_for_target : Entity)
      (reason : Option String)
  /-- A join was halted because one or more of its inputs became unreachable. -/
  | JoinImpossible (join : Entity) (unreachable : List Entity)
  /-- A service provider needed by the chain was despawned or had a critical
  component removed (`ServiceUnavailable { service, for_node }`). -/
  | ServiceUnavailable (service : Entity) (for_node : Entity)
  /-- An output was disposed because a mutex was poisoned. -/
  | PoisonedMutex (for_node : Entity)
  /-- A scope was cancelled so its output has been disposed. -/
  | Scope (cancellation : Cancellation)

end

/-- `Cancellation::from_cause`: wrap a cause with no nested cancellations. -/
def Cancellation.from_cause (cause : CancellationCause) : Cancellation :=
  .mk cause []

/-- `Disposal::service_unavailable` from `src/src/disposal.rs` (lines 45-47). -/
def Disposal.service_unavailable (service : Entity) (for_node : Entity) : Disposal :=
  .mk (.ServiceUnavailable service for_node)

/-! ## Claim C10 — `Buffered` for pairs (`src/src/buffer/buffered.rs` lines 89-121)

The `Buffered` trait instance for `(T0, T1)` is generic in its two
components; a component is abstracted here as its `buffered_count` query,
a function from the session to `Result<usize, OperationError>`. -/

/-- `<(T0, T1) as Buffered>::buffered_count`: query both components (the `?`
operator propagates the first error) and take the minimum of the two counts
(`[a, b].iter().min().unwrap_or(0)`). -/
def pairBufferedCount (c0 c1 : Entity → Except OperationError Nat)
    (session : Entity) : Except OperationError Nat :=
  match c0 session with
  | .error e => .error e
  | .ok n0 =>
    match c1 session with
    | .error e => .error e
    | .ok n1 => .ok (Nat.min n0 n1)

/-! ## Claim C9 — `Promise` / `PromiseState` (`src/bevy_services/src/promise.rs`)

`PromiseState::take` replaces the state with its successor and returns the
old state (`std::mem::replace`).  A `Promise` pairs its local state with the
shared result cell (`PromiseTarget.inner.result`); `Promise::update`
synchronizes the local state from the cell, but only while the local state
is still `Pending`. -/

/-- `PromiseState` from `src/bevy_services/src/promise.rs` (lines 206-216). -/
inductive PromiseState (T : Type) where
  | Available (value : T)
  | Pending
  | Canceled
  | Taken
deriving Repr, DecidableEq

/-- `PromiseState::take` (lines 244-261): computes the next state
(`Available _ ↦ Taken`, everything else fixed) and returns
`(old state, next state)`, mirroring `std::mem::replace(self, next_value)`. -/
def PromiseState.take {T : Type} (s : PromiseState T) :
    PromiseState T × PromiseState T :=
  match s with
  | .Available v => (.Available v, .Taken)
  | .Pending => (.Pending, .Pending)
  | .Canceled => (.Canceled, .Canceled)
  | .Taken => (.Taken, .Taken)

/-- The payload of the shared result cell (`PromiseResult` in
`promise.rs/private`): the sender finished with a value, or canceled. -/
inductive PromiseResult (T : Type) where
  | Finished (value : T)
  | Canceled
deriving Repr, DecidableEq

/-- A `Promise`: the locally cached `state` plus the shared result cell
(`target.inner.result`; `none` when no result has been sent or it was
already consumed by `update`). -/
structure Promise (T : Type) where
  state : PromiseState T
  target : Option (PromiseResult T)
deriving Repr, DecidableEq

/-- `Promise::update` (lines 142-166): only while the local state is
`Pending`, take the result out of the shared cell and transition to
`Available` or `Canceled` accordingly. -/
def Promise.update {T : Type} (p : Promise T) : Promise T :=
  match p.state, p.target with
  | .Pending, some (.Finished v) => { state := .Available v, target := none }
  | .Pending, some .Canceled => { state := .Canceled, target := none }
  | _, _ => p

/-- `Promise::take` (lines 65-68): synchronize via `update`, then apply
`PromiseState::take`; returns the reported state and the updated promise. -/
def Promise.take {T : Type} (p : Promise T) : PromiseState T × Promise T :=
  let p1 := p.update
  let r := p1.state.take
  (r.1, { p1 with state := r.2 })

/-- `Promise::peek` (lines 57-60): synchronize via `update`, then report the
current state (by reference; the value stays inside the promise). -/
def Promise.peek {T : Type} (p : Promise T) : PromiseState T × Promise T :=
  let p1 := p.update
  (p1.state, p1)

/-- The mutating observations a client can perform on a `Promise`
(`take`, `peek`; `update` is subsumed by both). -/
inductive PromiseOp where
  | take
  | peek
deriving Repr, DecidableEq

/-- Apply one observation, returning the reported state and the promise. -/
def Promise.applyOp {T : Type} (p : Promise T) :
    PromiseOp → PromiseState T × Promise T
  | .take => p.take
  | .peek => p.peek

/-- Run a sequence of observations, collecting every reported state. -/
def Promise.runOps {T : Type} (p : Promise T) :
    List PromiseOp → List (PromiseState T) × Promise T
  | [] => ([], p)
  | op :: rest =>
    let r := p.applyOp op
    let rs := r.2.runOps rest
    (r.1 :: rs.1, rs.2)

theorem Promise.update_of_taken {T : Type} (p : Promise T)
    (h : p.state = .Taken) : p.update = p := by
  unfold Promise.update
  rw [h]

theorem Promise.take_of_taken {T : Type} (p : Promise T)
    (h : p.state = .Taken) : p.take = (.Taken, p) := by
  obtain ⟨s, t⟩ := p
  have hs : s = .Taken := h
  subst hs
  simp [Promise.take, Promise.update, PromiseState.take]

theorem Promise.peek_of_taken {T : Type} (p : Promise T)
    (h : p.state = .Taken) : p.peek = (.Taken, p) := by
  obtain ⟨s, t⟩ := p
  have hs : s = .Taken := h
  subst hs
  simp [Promise.peek, Promise.update]

theorem Promise.runOps_of_taken {T : Type} (p : Promise T)
    (h : p.state = .Taken) (ops : List PromiseOp) :
    (∀ r ∈ (p.runOps ops).1, r = .Taken) ∧ (p.runOps ops).2 = p := by
  induction ops with
  | nil => simp [Promise.runOps]
  | cons op rest ih =>
    cases op with
    | take =>
      simp only [Promise.runOps, Promise.applyOp, Promise.take_of_taken p h]
      constructor
      · intro r hr
        rcases List.mem_cons.mp hr with h1 | h1
        · exact h1
        · exact ih.1 r h1
      · exact ih.2
    | peek =>
      simp only [Promise.runOps, Promise.applyOp, Promise.peek_of_taken p h]
      constructor
      · intro r hr
        rcases List.mem_cons.mp hr with h1 | h1
        · exact h1
        · exact ih.1 r h1
      · exact ih.2

theorem PromiseState.take_returns_old {T : Type} (s : PromiseState T) :
    (s.take).1 = s := by
  cases s <;> rfl

theorem Promise.take_fst {T : Type} (p : Promise T) :
    (p.take).1 = p.update.state := by
  simp [Promise.take, PromiseState.take_returns_old]

theorem Promise.take_snd_state {T : Type} (p : Promise T) :
    (p.take).2.state = (p.update.state.take).2 := rfl

/-- C9: once `take()` has returned an `Available` value, the promise's state
is permanently `Taken` — every later `take()` or `peek()` reports `Taken`,
leaves the promise unchanged, and the value can never be obtained again —
while `take()` on a promise that reports `Pending` or `Canceled` leaves the
state `Pending` or `Canceled` respectively (and, when no result has arrived
in the shared cell, leaves the promise entirely unchanged). -/
theorem promise_take_taken_is_permanent {T : Type} (p : Promise T) :
    (∀ v, (p.take).1 = .Available v → (p.take).2.state = .Taken) ∧
    (∀ v ops, (p.take).1 = .Available v →
      (∀ r ∈ ((p.take).2.runOps ops).1, r = .Taken) ∧
      ((p.take).2.runOps ops).2 = (p.take).2) ∧
    ((p.take).1 = .Pending → (p.take).2.state = .Pending) ∧
    ((p.take).1 = .Canceled → (p.take).2.state = .Canceled) ∧
    (p.state = .Pending → p.target = none → (p.take).2 = p) ∧
    (p.state = .Canceled → (p.take).2 = p) := by
  have hTaken : ∀ v : T, (p.take).1 = .Available v → (p.take).2.state = .Taken := by
    intro v h
    rw [Promise.take_fst] at h
    rw [Promise.take_snd_state, h]
    rfl
  refine ⟨hTaken, ?_, ?_, ?_, ?_, ?_⟩
  · intro v ops h
    exact Promise.runOps_of_taken _ (hTaken v h) ops
  · intro h
    rw [Promise.take_fst] at h
    rw [Promise.take_snd_state, h]
    rfl
  · intro h
    rw [Promise.take_fst] at h
    rw [Promise.take_snd_state, h]
    rfl
  · intro hs ht
    obtain ⟨s, t⟩ := p
    have hs' : s = .Pending := hs
    have ht' : t = none := ht
    subst hs'; subst ht'
    simp [Promise.take, Promise.update, PromiseState.take]
  · intro hs
    obtain ⟨s, t⟩ := p
    have hs' : s = .Canceled := hs
    subst hs'
    simp [Promise.take, Promise.update, PromiseState.take]

theorem promise_take_taken_is_permanent_witness :
    ((Promise.mk (.Available 7) none : Promise Nat).take).1 = .Available 7 ∧
    ((Promise.mk (.Available 7) none : Promise Nat).take).2.state = .Taken ∧
    (((Promise.mk (.Available 7) none : Promise Nat).take).2.runOps
      [.take, .peek]).1 = [.Taken, .Taken] := by
  refine ⟨by decide, (promise_take_taken_is_permanent _).1 7 (by decide), ?_⟩
  have h := (promise_take_taken_is_permanent
    (Promise.mk (.Available 7) none : Promise Nat)).2.1 7 [.take, .peek] (by decide)
  have h2 := h.1
  decide

/-- C10: for a pair of buffered components, `buffered_count` is the minimum
of the two components' counts, it is an error exactly when either
component's count is an error, and the resulting count is positive (a join
over the pair has an available input set) exactly when every component has
at least one buffered item. -/
theorem pair_buffered_count_min (c0 c1 : Entity → Except OperationError Nat)
    (session : Entity) :
    (∀ n0 n1, c0 session = .ok n0 → c1 session = .ok n1 →
      pairBufferedCount c0 c1 session = .ok (Nat.min n0 n1)) ∧
    ((∃ e, pairBufferedCount c0 c1 session = .error e) ↔
      (∃ e, c0 session = .error e) ∨ (∃ e, c1 session = .error e)) ∧
    (∀ n, pairBufferedCount c0 c1 session = .ok n →
      (1 ≤ n ↔ (∃ n0, c0 session = .ok n0 ∧ 1 ≤ n0) ∧
        (∃ n1, c1 session = .ok n1 ∧ 1 ≤ n1))) := by
  refine ⟨?_, ?_, ?_⟩
  · intro n0 n1 h0 h1
    simp [pairBufferedCount, h0, h1]
  · cases h0 : c0 session with
    | error e0 => simp [pairBufferedCount, h0]
    | ok n0 =>
      cases h1 : c1 session with
      | error e1 => simp [pairBufferedCount, h0, h1]
      | ok n1 => simp [pairBufferedCount, h0, h1]
  · intro n hn
    cases h0 : c0 session with
    | error e0 => simp [pairBufferedCount, h0] at hn
    | ok n0 =>
      cases h1 : c1 session with
      | error e1 => simp [pairBufferedCount, h0, h1] at hn
      | ok n1 =>
        simp only [pairBufferedCount, h0, h1, Except.ok.injEq] at hn
        subst hn
        constructor
        · intro hmin
          exact ⟨⟨n0, rfl, le_trans hmin (Nat.min_le_left _ _)⟩,
                 ⟨n1, rfl, le_trans hmin (Nat.min_le_right _ _)⟩⟩
        · rintro ⟨⟨m0, hm0, h10⟩, ⟨m1, hm1, h11⟩⟩
          injection hm0 with e0
          injection hm1 with e1
          subst e0
          subst e1
          exact Nat.le_min.mpr ⟨h10, h11⟩

theorem pair_buffered_count_min_witness :
    pairBufferedCount (fun _ => .ok 2) (fun _ => .ok 3) 0 = .ok (Nat.min 2 3) :=
  (pair_buffered_count_min (fun _ => .ok 2) (fun _ => .ok 3) 0).1 2 3 rfl rfl

/-! ## Claim C1 — `Cancel::trigger` (`src/src/cancel.rs` lines 142-175)

`try_trigger` looks up the target's `OperationCancelStorage` component (the
per-node cancellation-handler function pointer, set at construction) and
calls it exactly once with an `OperationCancel` wrapping the `Cancel`
record; if the component is missing it returns a `CancelFailure` carrying
`OperationError::Broken`.  `trigger` pushes that failure onto the
process-wide `UnhandledErrors` resource (`cancellations` vector),
creating the resource if needed, and returns normally either way. -/

/-- `Cancel` from `src/src/cancel.rs` (lines 131-140). -/
structure Cancel where
  source : Entity
  target : Entity
  session : Option Entity
  cancellation : Cancellation

/-- `CancelFailure` from `src/src/cancel.rs` (lines 303-308). -/
structure CancelFailure where
  error : OperationError
  cancel : Cancel

/-- `DisposalFailure` from `src/src/disposal.rs` (lines 306-313). -/
structure DisposalFailure where
  disposal : Disposal
  broken_node : Entity
  backtrace : Option Backtrace

/-- `StopTaskFailure` from `src/src/cancel.rs` (lines 350-355). -/
structure StopTaskFailure where
  task : Entity
  backtrace : Option Backtrace

/-- The `UnhandledErrors` resource from `src/src/cancel.rs` (lines 321-327). -/
structure UnhandledErrors where
  cancellations : List CancelFailure
  operations : List OperationError
  disposals : List DisposalFailure
  stop_tasks : List StopTaskFailure

/-- The slice of the `World` that `Cancel::trigger` touches: which entities
carry an `OperationCancelStorage` component (the cancellation-handler
function pointer), and the `UnhandledErrors` resource.  Since the stored
handler is node-specific and arbitrary, its invocation is recorded in an
`invoked` trace: each call of the stored function pointer appends the
`Cancel` record it was handed. -/
structure CancelWorld where
  has_cancel_handler : Entity → Bool
  unhandled : UnhandledErrors
  invoked : List Cancel

/-- `Cancel::try_trigger` (lines 158-174): invoke the target's handler with
the `Cancel` record, or report a `CancelFailure` with
`OperationError::Broken(Some(Backtrace::new()))` when the target has no
`OperationCancelStorage` (despawned or missing the component). -/
def Cancel.try_trigger (c : Cancel) (w : CancelWorld) :
    Except CancelFailure CancelWorld :=
  if w.has_cancel_handler c.target then
    .ok { w with invoked := w.invoked ++ [c] }
  else
    .error (CancelFailure.mk (.Broken (some ())) c)

/-- `Cancel::trigger` (lines 143-156): on failure, push the `CancelFailure`
onto the `UnhandledErrors` resource's `cancellations` vector instead of
propagating; the function is total, so the drain loop always continues. -/
def Cancel.trigger (c : Cancel) (w : CancelWorld) : CancelWorld :=
  match c.try_trigger w with
  | .ok w2 => w2
  | .error failure =>
    { w with unhandled :=
        { w.unhandled with
          cancellations := w.unhandled.cancellations ++ [failure] } }

/-- C1: when the cancellation target lacks a handler component, triggering
the `Cancel` appends a `CancelFailure` to the unhandled-errors sink's
`cancellations` vector and invokes no handler; when the handler is present,
it is invoked exactly once with the `Cancel` record and the sink is
untouched.  `Cancel.trigger` is a total function, so it returns normally in
both cases and never halts the drain loop. -/
theorem cancel_trigger_never_lost (c : Cancel) (w : CancelWorld) :
    (w.has_cancel_handler c.target = false →
      (c.trigger w).unhandled.cancellations =
        w.unhandled.cancellations ++ [CancelFailure.mk (.Broken (some ())) c] ∧
      (c.trigger w).invoked = w.invoked ∧
      (c.trigger w).unhandled.operations = w.unhandled.operations ∧
      (c.trigger w).unhandled.disposals = w.unhandled.disposals ∧
      (c.trigger w).unhandled.stop_tasks = w.unhandled.stop_tasks) ∧
    (w.has_cancel_handler c.target = true →
      (c.trigger w).invoked = w.invoked ++ [c] ∧
      (c.trigger w).unhandled = w.unhandled) := by
  constructor
  · intro h
    simp [Cancel.trigger, Cancel.try_trigger, h]
  · intro h
    simp [Cancel.trigger, Cancel.try_trigger, h]

theorem cancel_trigger_never_lost_witness :
    ((Cancel.mk 0 1 none (.from_cause (.TargetDropped 2))).trigger
      (CancelWorld.mk (fun _ => false) (UnhandledErrors.mk [] [] [] [])
        [])).unhandled.cancellations =
      [CancelFailure.mk (.Broken (some ()))
        (Cancel.mk 0 1 none (.from_cause (.TargetDropped 2)))] := by
  have h := (cancel_trigger_never_lost
    (Cancel.mk 0 1 none (.from_cause (.TargetDropped 2)))
    (CancelWorld.mk (fun _ => false) (UnhandledErrors.mk [] [] [] [])
      [])).1 rfl
  exact h.1

/-! ## Claim C7 — `ManageDisposal` for `EntityMut`
(`src/src/disposal.rs` lines 217-254)

`emit_disposal` requires the node's `ScopeStorage`: without a scope the
disposal is pushed onto the unhandled-errors sink as a `DisposalFailure`
and nothing else happens; with a scope it is appended to the node's
`DisposalStorage` map under the session key (inserting a fresh storage
component when absent) and the roster is notified via
`disposed(scope, session)`.  `clear_disposals` removes the session's map
entry. -/

/-- `DisposalStorage` (disposal.rs lines 297-301): a map from a session to
all the disposals that occurred for the session, modelled semantically as a
function to `Option` (`none` = key absent). -/
def DisposalStorage := Entity → Option (List Disposal)

/-- The components of the node that `ManageDisposal` reads and writes:
its id, its optional `ScopeStorage`, and its optional `DisposalStorage`. -/
structure DisposeNode where
  id : Entity
  scope : Option Entity
  disposal_storage : Option DisposalStorage

/-- `InspectDisposals::get_disposals` (disposal.rs lines 256-274). -/
def DisposeNode.get_disposals (n : DisposeNode) (session : Entity) :
    Option (List Disposal) :=
  match n.disposal_storage with
  | some m => m session
  | none => none

/-- The state `ManageDisposal` touches: the node itself, the
`UnhandledErrors` resource, and the roster's `disposed(scope, session)`
notifications. -/
structure DisposeWorld where
  node : DisposeNode
  unhandled : UnhandledErrors
  roster_disposed : List (Entity × Entity)

/-- `storage.disposals.entry(session).or_default().push(disposal)`. -/
def storagePush (m : DisposalStorage) (session : Entity) (d : Disposal) :
    DisposalStorage :=
  fun k => if k = session then some ((m session).getD [] ++ [d]) else m k

/-- `ManageDisposal::emit_disposal` (disposal.rs lines 218-247). -/
def emit_disposal (session : Entity) (disposal : Disposal)
    (w : DisposeWorld) : DisposeWorld :=
  match w.node.scope with
  | none =>
    { w with unhandled :=
        { w.unhandled with
          disposals := w.unhandled.disposals ++
            [DisposalFailure.mk disposal w.node.id (some ())] } }
  | some scope =>
    let storage : DisposalStorage :=
      match w.node.disposal_storage with
      | some m => storagePush m session disposal
      | none => storagePush (fun _ => none) session disposal
    { w with
      node := { w.node with disposal_storage := some storage },
      roster_disposed := w.roster_disposed ++ [(scope, session)] }

/-- `ManageDisposal::clear_disposals` (disposal.rs lines 249-253). -/
def clear_disposals (session : Entity) (w : DisposeWorld) : DisposeWorld :=
  match w.node.disposal_storage with
  | some m =>
    let m2 : DisposalStorage := fun k => if k = session then none else m k
    { w with node := { w.node with disposal_storage := some m2 } }
  | none => w

/-- C7: with a scope, `emit_disposal` appends the disposal to the node's
per-session disposal map (creating the storage when absent), leaves every
other session's entries unchanged, and notifies the roster via
`disposed(scope, session)`; without a scope, the disposal is recorded as a
`DisposalFailure` in the unhandled-errors sink, the node is unchanged and
the roster is not notified.  `clear_disposals` removes exactly the given
session's entries. -/
theorem emit_disposal_scoped_and_clear (session : Entity) (d : Disposal)
    (w : DisposeWorld) :
    (∀ scope, w.node.scope = some scope →
      (emit_disposal session d w).node.get_disposals session =
        some ((w.node.get_disposals session).getD [] ++ [d]) ∧
      (∀ s, s ≠ session →
        (emit_disposal session d w).node.get_disposals s =
          w.node.get_disposals s) ∧
      (emit_disposal session d w).roster_disposed =
        w.roster_disposed ++ [(scope, session)] ∧
      (emit_disposal session d w).unhandled = w.unhandled) ∧
    (w.node.scope = none →
      (emit_disposal session d w).unhandled.disposals =
        w.unhandled.disposals ++ [DisposalFailure.mk d w.node.id (some ())] ∧
      (emit_disposal session d w).node = w.node ∧
      (emit_disposal session d w).roster_disposed = w.roster_disposed) ∧
    ((clear_disposals session w).node.get_disposals session = none ∧
      (∀ s, s ≠ session →
        (clear_disposals session w).node.get_disposals s =
          w.node.get_disposals s) ∧
      (clear_disposals session w).unhandled = w.unhandled ∧
      (clear_disposals session w).roster_disposed = w.roster_disposed) := by
  refine ⟨?_, ?_, ?_⟩
  · intro scope hscope
    cases hstore : w.node.disposal_storage with
    | some m =>
      refine ⟨?_, ?_, ?_, ?_⟩ <;>
        simp [emit_disposal, hscope, hstore, DisposeNode.get_disposals,
          storagePush]
      intro s hs
      simp [hs]
    | none =>
      refine ⟨?_, ?_, ?_, ?_⟩ <;>
        simp [emit_disposal, hscope, hstore, DisposeNode.get_disposals,
          storagePush]
  · intro hscope
    exact ⟨by simp [emit_disposal, hscope], by simp [emit_disposal, hscope],
      by simp [emit_disposal, hscope]⟩
  · cases hstore : w.node.disposal_storage with
    | some m =>
      refine ⟨?_, ?_, ?_, ?_⟩ <;>
        simp [clear_disposals, hstore, DisposeNode.get_disposals]
      intro s hs
      simp [hs]
    | none =>
      exact ⟨by simp [clear_disposals, hstore, DisposeNode.get_disposals],
        by intro s _; simp [clear_disposals, hstore],
        by simp [clear_disposals, hstore],
        by simp [clear_disposals, hstore]⟩

theorem emit_disposal_scoped_and_clear_witness :
    ((emit_disposal 3 (Disposal.service_unavailable 4 5)
      (DisposeWorld.mk (DisposeNode.mk 1 (some 2) none)
        (UnhandledErrors.mk [] [] [] []) [])).roster_disposed = [(2, 3)]) ∧
    ((clear_disposals 3
      (DisposeWorld.mk (DisposeNode.mk 1 (some 2) none)
        (UnhandledErrors.mk [] [] [] []) [])).node.get_disposals 3 = none) := by
  have h := emit_disposal_scoped_and_clear 3 (Disposal.service_unavailable 4 5)
    (DisposeWorld.mk (DisposeNode.mk 1 (some 2) none)
      (UnhandledErrors.mk [] [] [] []) [])
  exact ⟨(h.1 2 rfl).2.2.1, h.2.2.1⟩

/-! ## The legacy `bevy_services` cancellation model
(`src/bevy_services/src/cancel.rs`)

The repository snapshot contains two crate generations.  The legacy crate's
`CancellationCause` still has the `ServiceUnavailable`, `JoinCancelled` and
`RaceCancelled` variants that the newer crate dropped or moved; `ForkCancelled`,
`JoinCancelled` and `RaceCancelled` hold `Vec<Arc<CancellationCause>>`,
modelled as nested lists. -/

namespace BevyServices

/-- The legacy `CancellationCause` (`src/bevy_services/src/cancel.rs`
lines 40-94), with `Supplanted { cancelled_at, supplanter }`,
`ForkCancelled { fork, cancelled }`, `JoinCancelled { join, delivered,
pending, disposals, cancellations }` and `RaceCancelled { race, disposals,
cancellations }` flattened into constructor fields. -/
inductive CancellationCause where
  | UnusedTarget (target : Entity)
  | ServiceUnavailable (service : Entity)
  | TargetDropped (target : Entity)
  | Supplanted (cancelled_at : Entity) (supplanter : Entity)
  | BrokenLink (link : Entity)
  | Filtered (link : Entity)
  | ForkCancelled (fork : Entity) (cancelled : List CancellationCause)
  | JoinCancelled (join : Entity) (delivered : List Entity)
      (pending : List Entity) (disposals : List Entity)
      (cancellations : List CancellationCause)
  | RaceCancelled (race : Entity) (disposals : List Entity)
      (cancellations : List CancellationCause)

/-- The legacy `Cancel` record (`src/bevy_services/src/cancel.rs`
lines 160-163). -/
structure Cancel where
  apply_to : Entity
  cause : CancellationCause

/-- `Cancel::service_unavailable` (`src/bevy_services/src/cancel.rs`
lines 176-179).  NOTE: the current crate's `Cancel`
(`src/src/cancel.rs`) has **no** such constructor and its
`CancellationCause` has no `ServiceUnavailable` variant, yet
`cancel_service` in `src/src/operation/operate_service.rs` still calls it;
we embed the record the legacy constructor builds. -/
def Cancel.service_unavailable (source : Entity) (service : Entity) : Cancel :=
  Cancel.mk source (.ServiceUnavailable service)

end BevyServices

/-! ## Claim C2 — `cancel_service`
(`src/src/operation/operate_service.rs` lines 92-105)

When a provider node disappears, `cancel_service` queries every entity that
has a `ProviderStorage` component and, for each one pointing at the
cancelled provider, pushes `Cancel::service_unavailable(source, provider)`
onto the roster's **cancel** queue — a cancellation, not a disposal.
`Disposal::service_unavailable` (`src/src/disposal.rs` lines 45-47) exists
but is never called. -/

/-- The roster operations observable from `cancel_service`: the cancel
queue, the `disposed(scope, session)` notifications, and any `Disposal`
records emitted through the disposal path. -/
structure ServiceRoster where
  cancel_queue : List BevyServices.Cancel
  disposed_notices : List (Entity × Entity)
  disposals_emitted : List Disposal

/-- `cancel_service` (operate_service.rs lines 92-105): iterate the
`(Entity, &ProviderStorage)` query — modelled as the list of
`(source, provider)` pairs — and push a `service_unavailable` *cancel*
onto the roster for every request node whose provider matches. -/
def cancel_service (cancelled_provider : Entity)
    (providers : List (Entity × Entity)) (roster : ServiceRoster) :
    ServiceRoster :=
  providers.foldl
    (fun r sp =>
      if sp.2 = cancelled_provider then
        { r with cancel_queue := r.cancel_queue ++
            [BevyServices.Cancel.service_unavailable sp.1 cancelled_provider] }
      else r)
    roster

/-- C2 (code evaluation at the failing input): with provider `9` despawned
while request node `5` still has `ProviderStorage(9)`, `cancel_service`
pushes one `ServiceUnavailable` **cancellation** onto the roster's cancel
queue and emits no disposal and no `disposed` notification — contradicting
the claim that such requests are resolved as `ServiceUnavailable`
*disposals*. -/
theorem cancel_service_cancels_instead_of_disposing :
    cancel_service 9 [(5, 9)] (ServiceRoster.mk [] [] []) =
      ServiceRoster.mk [BevyServices.Cancel.mk 5 (.ServiceUnavailable 9)] [] []
    ∧ (cancel_service 9 [(5, 9)]
        (ServiceRoster.mk [] [] [])).disposals_emitted = []
    ∧ (cancel_service 9 [(5, 9)]
        (ServiceRoster.mk [] [] [])).disposed_notices = [] := by
  refine ⟨?_, rfl, rfl⟩
  simp [cancel_service, BevyServices.Cancel.service_unavailable]

/-! ## Claim C4 — `OperateTask::execute`
(`src/src/operation/operate_task.rs` lines 127-170)

The task node carries `TaskStorage<Response>` (the wrapped computation),
`JobWakerStorage`, `SingleTargetStorage`, `TaskSessionStorage` and
`BlockerStorage`.  `execute` takes the computation out and polls it: on
`Ready`, it unblocks any held blocker token, gives the result to the
recorded single target for the task's session, and despawns the task node;
on `Pending`, it re-inserts the computation and the waker, leaving the node
alive. -/

/-- The result of polling a computation. -/
inductive Poll (R : Type) where
  | Ready (value : R)
  | Pending
deriving Repr, DecidableEq

/-- An asynchronous computation, abstracted as a countdown: it reports
`Pending` for `remaining` further polls and then `Ready value`. -/
structure Computation (R : Type) where
  remaining : Nat
  value : R
deriving Repr, DecidableEq

/-- Poll once: the returned computation is what is left to re-store when
the poll came back `Pending`. -/
def Computation.poll {R : Type} : Computation R → Poll R × Computation R
  | ⟨0, v⟩ => (.Ready v, ⟨0, v⟩)
  | ⟨n + 1, v⟩ => (.Pending, ⟨n, v⟩)

/-- A `Blocker` serialization token, identified by its session entity. -/
abbrev Blocker := Entity

/-- The components of a task node that `OperateTask::execute` touches:
`TaskStorage` (taken out before polling; `none` models the component being
absent), `JobWakerStorage`, `SingleTargetStorage`, `TaskSessionStorage` and
`BlockerStorage`. -/
structure TaskNode (R : Type) where
  task : Option (Computation R)
  waker : Option Unit
  target : Entity
  session : Entity
  blocker : Option Blocker
deriving Repr, DecidableEq

/-- The world slice for one task node: the node itself (`none` once it is
despawned), the log of `give_input(target, session, result)` deliveries,
and the roster's `unblock` queue. -/
structure TaskWorld (R : Type) where
  node : Option (TaskNode R)
  delivered : List (Entity × Entity × R)
  unblocked : List Blocker
deriving Repr, DecidableEq

/-- `OperateTask::execute` (operate_task.rs lines 127-170). -/
def OperateTask.execute {R : Type} (w : TaskWorld R) :
    Except OperationError (TaskWorld R) :=
  match w.node with
  | none => .error (.Broken (some ()))
  | some node =>
    match node.task with
    | none => .error (.Broken (some ()))
    | some task =>
      match task.poll with
      | (.Ready result, _) =>
        let unblock : List Blocker :=
          match node.blocker with
          | some b => [b]
          | none => []
        .ok { node := none,
              delivered := w.delivered ++ [(node.target, node.session, result)],
              unblocked := w.unblocked ++ unblock }
      | (.Pending, rest) =>
        let node2 : TaskNode R := { node with task := some rest, waker := some () }
        .ok { w with node := some node2 }

/-- C4: executing a task node either (a) when the computation polls
`Ready r`: delivers `r` to the node's recorded single target for the
task's session, releases any held blocker token, and despawns the task
node; or (b) when it polls `Pending`: re-stores the remaining computation
and the waker on the node, leaving the node alive and delivering nothing. -/
theorem operate_task_execute_ready_or_pending {R : Type} (w : TaskWorld R)
    (node : TaskNode R) (task : Computation R)
    (hnode : w.node = some node) (htask : node.task = some task) :
    (∀ r c, task.poll = (.Ready r, c) →
      OperateTask.execute w = .ok
        { node := none,
          delivered := w.delivered ++ [(node.target, node.session, r)],
          unblocked := w.unblocked ++
            (match node.blocker with | some b => [b] | none => []) }) ∧
    (∀ rest, task.poll = (.Pending, rest) →
      OperateTask.execute w =
        .ok { w with node := some { node with task := some rest, waker := some () } }) := by
  constructor
  · intro r c hpoll
    simp [OperateTask.execute, hnode, htask, hpoll]
  · intro rest hpoll
    simp [OperateTask.execute, hnode, htask, hpoll]

theorem operate_task_execute_ready_or_pending_witness :
    OperateTask.execute
      (TaskWorld.mk (some (TaskNode.mk (some (Computation.mk 0 42)) (some ())
        7 8 (some 9))) [] []) =
      .ok (TaskWorld.mk none [(7, 8, 42)] [9]) ∧
    OperateTask.execute
      (TaskWorld.mk (some (TaskNode.mk (some (Computation.mk 1 42)) (some ())
        7 8 none)) [] []) =
      .ok (TaskWorld.mk (some (TaskNode.mk (some (Computation.mk 0 42))
        (some ()) 7 8 none)) [] []) := by
  constructor
  · exact (operate_task_execute_ready_or_pending
      (TaskWorld.mk (some (TaskNode.mk (some (Computation.mk 0 42)) (some ())
        7 8 (some 9))) [] [])
      (TaskNode.mk (some (Computation.mk 0 42)) (some ()) 7 8 (some 9))
      (Computation.mk 0 42) rfl rfl).1 42 (Computation.mk 0 42) rfl
  · exact (operate_task_execute_ready_or_pending
      (TaskWorld.mk (some (TaskNode.mk (some (Computation.mk 1 42)) (some ())
        7 8 none)) [] [])
      (TaskNode.mk (some (Computation.mk 1 42)) (some ()) 7 8 none)
      (Computation.mk 1 42) rfl rfl).2 (Computation.mk 0 42) rfl

/-! ## Claim C3 — join/race disposal-vs-cancel tie-break

The executable join/race implementation in the snapshot is an acknowledged
placeholder (`src/bevy_services/src/chain/dangling.rs`, `ZippedChains::join`
lines 90-99: "This is just a placeholder to test the API for now"), so the
settlement logic below is modelled from the specification's words (§4.3,
P2), using the legacy crate's `JoinCancelled`/`RaceCancelled` cause records
(`src/bevy_services/src/cancel.rs` lines 119-156) for the enumerated
breakdown. -/

/-- The end state of one join/race input for a session: its value was
delivered, it is still pending (neither delivered, cancelled, nor
disposed), it was disposed, or it was cancelled with a cause. -/
inductive InputStatus where
  | delivered
  | pending
  | disposed
  | cancelled (cause : BevyServices.CancellationCause)

/-- Whether this input ended in cancellation. -/
def InputStatus.isCancelled : InputStatus → Bool
  | .cancelled _ => true
  | _ => false

/-- The inputs (paired with their end states) with the given shape. -/
def inputsWith (p : InputStatus → Bool)
    (inputs : List (Entity × InputStatus)) : List Entity :=
  (inputs.filter (fun i => p i.2)).map (·.1)

/-- The causes of the cancelled inputs, in order. -/
def cancelCauses : List (Entity × InputStatus) →
    List BevyServices.CancellationCause
  | [] => []
  | (_, .cancelled cause) :: rest => cause :: cancelCauses rest
  | _ :: rest => cancelCauses rest

/-- How a join (or race) itself terminates for a session. -/
inductive FanInOutcome where
  | completed
  | disposed
  | cancelled (cause : BevyServices.CancellationCause)

/-- Modelled from the spec: the settlement of a join whose executable
implementation is the acknowledged placeholder.  §4.3: "on completion
records which were delivered, pending, disposed, cancelled.  Policy: if
all unresolved inputs end as disposals (no cancellations), the join itself
is disposed (not cancelled) ...  If any unresolved input is a
cancellation, the join is cancelled, carrying the full breakdown." -/
def settle_join (join : Entity) (inputs : List (Entity × InputStatus)) :
    FanInOutcome :=
  if inputs.all (fun i => i.2 matches .delivered) then .completed
  else if inputs.any (fun i => i.2.isCancelled) then
    .cancelled (.JoinCancelled join
      (inputsWith (· matches .delivered) inputs)
      (inputsWith (· matches .pending) inputs)
      (inputsWith (· matches .disposed) inputs)
      (cancelCauses inputs))
  else .disposed

/-- Modelled from the spec: the settlement of a race among unproductive
inputs.  §4.3: "all others are cancelled with
`RaceCancelled{disposals, cancellations}`; identical
all-disposed-vs-any-cancelled tie-break rule applies". -/
def settle_race (race : Entity) (inputs : List (Entity × InputStatus)) :
    FanInOutcome :=
  if inputs.any (fun i => i.2 matches .delivered) then .completed
  else if inputs.any (fun i => i.2.isCancelled) then
    .cancelled (.RaceCancelled race
      (inputsWith (· matches .disposed) inputs)
      (cancelCauses inputs))
  else .disposed

/-- C3: if none of a join's inputs ended in cancellation and the join could
not complete (not every input was delivered), the join's own outcome is a
disposal; if at least one input ended in cancellation, the outcome is a
cancellation whose `JoinCancelled` record enumerates the delivered,
pending, and disposed inputs and the cancelled inputs' causes.  The same
tie-break classifies a race, with its `RaceCancelled` record enumerating
the disposed inputs and the cancelled inputs' causes. -/
theorem join_race_disposal_cancel_tie_break (join race : Entity)
    (inputs : List (Entity × InputStatus)) :
    ((∀ i ∈ inputs, i.2.isCancelled = false) →
      (¬ ∀ i ∈ inputs, i.2 matches InputStatus.delivered) →
      settle_join join inputs = .disposed) ∧
    ((∃ i ∈ inputs, i.2.isCancelled = true) →
      settle_join join inputs = .cancelled (.JoinCancelled join
        (inputsWith (· matches .delivered) inputs)
        (inputsWith (· matches .pending) inputs)
        (inputsWith (· matches .disposed) inputs)
        (cancelCauses inputs))) ∧
    ((∀ i ∈ inputs, i.2.isCancelled = false) →
      (¬ ∃ i ∈ inputs, i.2 matches InputStatus.delivered) →
      settle_race race inputs = .disposed) ∧
    ((¬ ∃ i ∈ inputs, i.2 matches InputStatus.delivered) →
      (∃ i ∈ inputs, i.2.isCancelled = true) →
      settle_race race inputs = .cancelled (.RaceCancelled race
        (inputsWith (· matches .disposed) inputs)
        (cancelCauses inputs))) := by
  have anyCancelFalse : (∀ i ∈ inputs, i.2.isCancelled = false) →
      inputs.any (fun i => i.2.isCancelled) = false := by
    intro hnone
    cases hany : inputs.any (fun i => i.2.isCancelled) with
    | false => rfl
    | true =>
      obtain ⟨i, hi, hc⟩ := List.any_eq_true.mp hany
      rw [hnone i hi] at hc
      simp at hc
  refine ⟨?_, ?_, ?_, ?_⟩
  · intro hnone hnotall
    have h1 : inputs.all (fun i => i.2 matches InputStatus.delivered) = false := by
      cases hall : inputs.all (fun i => i.2 matches InputStatus.delivered) with
      | false => rfl
      | true => exact absurd (fun i hi => List.all_eq_true.mp hall i hi) hnotall
    simp [settle_join, h1, anyCancelFalse hnone]
  · rintro ⟨i, hi, hc⟩
    have h2 : inputs.any (fun i => i.2.isCancelled) = true :=
      List.any_eq_true.mpr ⟨i, hi, hc⟩
    have h1 : inputs.all (fun i => i.2 matches InputStatus.delivered) = false := by
      cases hall : inputs.all (fun i => i.2 matches InputStatus.delivered) with
      | false => rfl
      | true =>
        have hd := List.all_eq_true.mp hall i hi
        cases he : i.2 <;> rw [he] at hd hc <;>
          simp [InputStatus.isCancelled] at hd hc
    simp [settle_join, h1, h2]
  · intro hnone hnodeliv
    have h1 : inputs.any (fun i => i.2 matches InputStatus.delivered) = false := by
      cases hany : inputs.any (fun i => i.2 matches InputStatus.delivered) with
      | false => rfl
      | true =>
        obtain ⟨i, hi, hd⟩ := List.any_eq_true.mp hany
        exact absurd ⟨i, hi, hd⟩ hnodeliv
    simp [settle_race, h1, anyCancelFalse hnone]
  · intro hnodeliv hc
    obtain ⟨i, hi, hci⟩ := hc
    have h2 : inputs.any (fun i => i.2.isCancelled) = true :=
      List.any_eq_true.mpr ⟨i, hi, hci⟩
    have h1 : inputs.any (fun i => i.2 matches InputStatus.delivered) = false := by
      cases hany : inputs.any (fun i => i.2 matches InputStatus.delivered) with
      | false => rfl
      | true =>
        obtain ⟨j, hj, hd⟩ := List.any_eq_true.mp hany
        exact absurd ⟨j, hj, hd⟩ hnodeliv
    simp [settle_race, h1, h2]

theorem join_race_disposal_cancel_tie_break_witness :
    settle_join 1 [(10, .disposed), (11, .disposed)] = .disposed ∧
    settle_join 1 [(10, .delivered), (11, .pending), (12, .disposed),
        (13, .cancelled (.TargetDropped 9))] =
      .cancelled (.JoinCancelled 1 [10] [11] [12] [.TargetDropped 9]) := by
  constructor
  · exact (join_race_disposal_cancel_tie_break 1 1
      [(10, .disposed), (11, .disposed)]).1
      (by intro i hi; fin_cases hi <;> rfl)
      (by intro h; simpa using h (10, .disposed) (by simp))
  · exact (join_race_disposal_cancel_tie_break 1 1
      [(10, .delivered), (11, .pending), (12, .disposed),
        (13, .cancelled (.TargetDropped 9))]).2.1
      ⟨(13, .cancelled (.TargetDropped 9)), by simp, rfl⟩

/-! ## Claim C6 — `is_reachable` for service and async-map nodes
(`src/src/operation/operate_service.rs` lines 78-87,
`src/src/operation/operate_map.rs` lines 197-206)

Both implementations are the same disjunction: buffered input for the
session exists (`has_input::<Request>`), or the node's
`ActiveTasksStorage` holds a task for the session
(`ActiveTasksStorage::contains_session`, operate_task.rs lines 261-268),
or `SingleInputStorage::is_reachable` — the recursive walk over the
recorded upstream sources, whose implementation is not under `src/` and is
modelled from the spec: "at least one recorded upstream source can still
(recursively) reach this node for that session".  These nodes always carry
all three components (inserted at `setup`), so the component lookups are
modelled as total fields.  The whole query only reads the world; the
embedding is a plain function of the world. -/

/-- `ActiveTask` from `src/src/operation/operate_task.rs` (lines 232-235). -/
structure ActiveTask where
  task_id : Entity
  session : Entity
deriving Repr, DecidableEq

/-- The reachability-relevant components of a service / async-map node:
the per-session buffered-input flag, the active-task list, and the
upstream sources recorded in its `SingleInputStorage`. -/
structure ReachNode where
  has_input : Entity → Bool
  tasks : List ActiveTask
  upstream : List Entity

/-- The world as seen by the reachability query: an association of node
entities with their components. -/
structure ReachWorld where
  nodes : List (Entity × ReachNode)

/-- Association-list lookup of a node's components. -/
def lookupNode : List (Entity × ReachNode) → Entity → Option ReachNode
  | [], _ => none
  | (k, n) :: rest, e => if k = e then some n else lookupNode rest e

/-- `OperateService::is_reachable` / `OperateAsyncMap::is_reachable`:
buffered input, or an active task for the session, or some upstream source
that can recursively reach this node.  `fuel` bounds the recursion depth
(the source bounds it with a visited set instead). -/
def is_reachable (w : ReachWorld) (session : Entity) :
    Nat → Entity → Bool
  | 0, _ => false
  | fuel + 1, source =>
    match lookupNode w.nodes source with
    | none => false
    | some node =>
      node.has_input session ||
      node.tasks.any (fun t => t.session == session) ||
      node.upstream.any (fun u => is_reachable w session fuel u)

/-- A node is reachable for a session when some recursion depth suffices. -/
def reachable (w : ReachWorld) (session : Entity) (source : Entity) : Prop :=
  ∃ fuel, is_reachable w session fuel source = true

theorem is_reachable_mono (w : ReachWorld) (session : Entity) :
    ∀ fuel fuel' source, fuel ≤ fuel' →
      is_reachable w session fuel source = true →
      is_reachable w session fuel' source = true := by
  intro fuel
  induction fuel with
  | zero => intro fuel' source _ h; simp [is_reachable] at h
  | succ n ih =>
    intro fuel' source hle h
    obtain ⟨m, rfl⟩ : ∃ m, fuel' = m + 1 := by
      cases fuel' with
      | zero => omega
      | succ m => exact ⟨m, rfl⟩
    simp only [is_reachable] at h ⊢
    cases hlook : lookupNode w.nodes source with
    | none => rw [hlook] at h; exact h
    | some node =>
      rw [hlook] at h
      have h2 : (node.has_input session ||
          node.tasks.any (fun t => t.session == session) ||
          node.upstream.any (fun u => is_reachable w session n u)) = true := h
      show (node.has_input session ||
          node.tasks.any (fun t => t.session == session) ||
          node.upstream.any (fun u => is_reachable w session m u)) = true
      rcases (Bool.or_eq_true _ _).mp h2 with h1 | h3
      · exact (Bool.or_eq_true _ _).mpr (Or.inl h1)
      · refine (Bool.or_eq_true _ _).mpr (Or.inr ?_)
        obtain ⟨u, hu, hr⟩ := List.any_eq_true.mp h3
        exact List.any_eq_true.mpr ⟨u, hu, ih m u (by omega) hr⟩

/-- C6: a service node (and likewise an async-map node) is reachable for a
session exactly when buffered input exists for the session, or an active
task for the session exists in the node's active-task list, or some
recorded upstream source can recursively reach the node for that session;
the query is a plain function of the world, performing no mutation. -/
theorem service_is_reachable_characterization (w : ReachWorld)
    (session source : Entity) :
    reachable w session source ↔
      ∃ node, lookupNode w.nodes source = some node ∧
        (node.has_input session = true ∨
         (∃ t ∈ node.tasks, t.session = session) ∨
         (∃ u ∈ node.upstream, reachable w session u)) := by
  constructor
  · rintro ⟨fuel, h⟩
    cases fuel with
    | zero => simp [is_reachable] at h
    | succ n =>
      simp only [is_reachable] at h
      cases hlook : lookupNode w.nodes source with
      | none => rw [hlook] at h; simp at h
      | some node =>
        rw [hlook] at h
        have h0 : (node.has_input session ||
            node.tasks.any (fun t => t.session == session) ||
            node.upstream.any (fun u => is_reachable w session n u)) = true := h
        refine ⟨node, rfl, ?_⟩
        rcases (Bool.or_eq_true _ _).mp h0 with h12 | h3
        · rcases (Bool.or_eq_true _ _).mp h12 with h1 | h2
          · exact Or.inl h1
          · obtain ⟨t, ht, hts⟩ := List.any_eq_true.mp h2
            exact Or.inr (Or.inl ⟨t, ht, by simpa using hts⟩)
        · obtain ⟨u, hu, hr⟩ := List.any_eq_true.mp h3
          exact Or.inr (Or.inr ⟨u, hu, n, hr⟩)
  · rintro ⟨node, hlook, h1 | ⟨t, ht, hts⟩ | ⟨u, hu, fuel, hr⟩⟩
    · exact ⟨1, by simp [is_reachable, hlook, h1]⟩
    · refine ⟨1, ?_⟩
      simp only [is_reachable, hlook]
      refine (Bool.or_eq_true _ _).mpr
        (Or.inl ((Bool.or_eq_true _ _).mpr (Or.inr ?_)))
      exact List.any_eq_true.mpr ⟨t, ht, by simp [hts]⟩
    · refine ⟨fuel + 1, ?_⟩
      simp only [is_reachable, hlook]
      refine (Bool.or_eq_true _ _).mpr (Or.inr ?_)
      exact List.any_eq_true.mpr ⟨u, hu, hr⟩

/-! ## Claim C8 — labeled delivery: preemption, ensure, mutual exclusion
(`src/src/service.rs` lines 144-218; the delivery-queue implementation
lives in `src/src/service/delivery.rs`, which is not part of the snapshot,
so the queue semantics are modelled from the spec §4.6 and the
`DeliveryInstructions` documentation.)

All requests below share one `DeliveryLabelId` at one provider (the real
implementation keys this state by label).  `started`/`finished` events
record the execution window of each request; a request's window also ends
when it is supplanted. -/

/-- `DeliveryInstructions` from `src/src/service.rs` (lines 144-149):
a delivery label plus the `preempt` and `ensure` modifiers. -/
structure DeliveryInstructions where
  label : Nat
  preempt : Bool
  ensure : Bool
deriving Repr, DecidableEq

/-- `DeliveryInstructions::new` (service.rs lines 155-161): no modifiers. -/
def DeliveryInstructions.new (label : Nat) : DeliveryInstructions :=
  { label := label, preempt := false, ensure := false }

/-- One request waiting at (or being delivered by) a provider. -/
structure DeliveryOrder where
  source : Entity
  session : Entity
  instructions : DeliveryInstructions
deriving Repr, DecidableEq

/-- The start or end of one request's execution window at the provider. -/
inductive DeliveryEvent where
  | started (source : Entity)
  | finished (source : Entity)
deriving Repr, DecidableEq

/-- Modelled from the spec: the per-label delivery state at one provider —
the in-flight request (`active`), the FIFO queue behind it, the
`Supplanted` cancellations issued so far (cancelled source, supplanting
source, supplanting session), and the log of execution windows. -/
structure LabelDelivery where
  active : Option DeliveryOrder
  queue : List DeliveryOrder
  supplanted : List (Entity × Entity × Entity)
  log : List DeliveryEvent
deriving Repr, DecidableEq

/-- The queued requests that survive a preemption: those carrying `ensure`. -/
def keepEnsured (q : List DeliveryOrder) : List DeliveryOrder :=
  q.filter (fun o => o.instructions.ensure)

/-- The queued requests a preemption cancels: those not carrying `ensure`. -/
def droppedOrders (q : List DeliveryOrder) : List DeliveryOrder :=
  q.filter (fun o => !o.instructions.ensure)

/-- The `Supplanted` records a preemptive request issues for the dropped
queue entries. -/
def supplantPairs (new : DeliveryOrder) (q : List DeliveryOrder) :
    List (Entity × Entity × Entity) :=
  (droppedOrders q).map (fun o => (o.source, new.source, new.session))

/-- If the provider is idle and a request is queued, start delivering the
head of the queue. -/
def startNext (st : LabelDelivery) : LabelDelivery :=
  match st.active, st.queue with
  | none, next :: rest =>
    { st with active := some next, queue := rest, log := st.log ++ [.started next.source] }
  | _, _ => st

/-- Modelled from the spec (§4.6): a new request arrives for this label.
Without `preempt`, it queues behind any in-flight request.  With
`preempt`, every earlier unfinished request that does not carry `ensure`
— queued or in-flight — is cancelled with cause `Supplanted`; requests
carrying `ensure` are kept, and the preemptive request queues after
them. -/
def deliver (new : DeliveryOrder) (st : LabelDelivery) : LabelDelivery :=
  if new.instructions.preempt then
    match st.active with
    | some a =>
      if a.instructions.ensure then
        { active := some a, queue := keepEnsured st.queue ++ [new], supplanted := st.supplanted ++ supplantPairs new st.queue, log := st.log }
      else
        startNext { active := none, queue := keepEnsured st.queue ++ [new], supplanted := st.supplanted ++ supplantPairs new st.queue ++ [(a.source, new.source, new.session)], log := st.log ++ [.finished a.source] }
    | none =>
      startNext { active := none, queue := keepEnsured st.queue ++ [new], supplanted := st.supplanted ++ supplantPairs new st.queue, log := st.log }
  else
    match st.active with
    | some _ => { st with queue := st.queue ++ [new] }
    | none => startNext { st with queue := st.queue ++ [new] }

/-- The in-flight request resolves (delivered or cancelled); the next
queued request, if any, is dispatched. -/
def finishActive (st : LabelDelivery) : LabelDelivery :=
  match st.active with
  | some a =>
    startNext { st with active := none, log := st.log ++ [.finished a.source] }
  | none => st

/-- One transition of the per-label delivery state. -/
inductive DeliveryStep : LabelDelivery → LabelDelivery → Prop where
  | deliver (new : DeliveryOrder) (st : LabelDelivery) :
      DeliveryStep st (deliver new st)
  | finish (st : LabelDelivery) : DeliveryStep st (finishActive st)

/-- The delivery states reachable from the idle initial state. -/
inductive ReachableDelivery : LabelDelivery → Prop where
  | init : ReachableDelivery (LabelDelivery.mk none [] [] [])
  | step {st st' : LabelDelivery} : ReachableDelivery st →
      DeliveryStep st st' → ReachableDelivery st'

/-- How many execution windows have opened. -/
def startedCount (l : List DeliveryEvent) : Nat :=
  (l.filter (fun e => e matches .started _)).length

/-- How many execution windows have closed. -/
def finishedCount (l : List DeliveryEvent) : Nat :=
  (l.filter (fun e => e matches .finished _)).length

/-- The exact bookkeeping invariant: open windows = 1 iff a request is
in flight. -/
def DeliveryInv (st : LabelDelivery) : Prop :=
  startedCount st.log =
    finishedCount st.log + (if st.active.isSome then 1 else 0)

theorem startedCount_append (l1 l2 : List DeliveryEvent) :
    startedCount (l1 ++ l2) = startedCount l1 + startedCount l2 := by
  simp [startedCount, List.filter_append]

theorem finishedCount_append (l1 l2 : List DeliveryEvent) :
    finishedCount (l1 ++ l2) = finishedCount l1 + finishedCount l2 := by
  simp [finishedCount, List.filter_append]

theorem deliveryInv_startNext (st : LabelDelivery) (h : DeliveryInv st) :
    DeliveryInv (startNext st) := by
  obtain ⟨active, queue, supp, log⟩ := st
  cases active with
  | some a => exact h
  | none =>
    cases queue with
    | nil => exact h
    | cons next rest =>
      show DeliveryInv (LabelDelivery.mk (some next) rest supp
        (log ++ [.started next.source]))
      unfold DeliveryInv at h ⊢
      rw [startedCount_append, finishedCount_append]
      simp [startedCount, finishedCount] at h ⊢
      omega

theorem deliveryInv_deliver (new : DeliveryOrder) (st : LabelDelivery)
    (h : DeliveryInv st) : DeliveryInv (deliver new st) := by
  obtain ⟨active, queue, supp, log⟩ := st
  obtain ⟨nsrc, nsess, ni⟩ := new
  obtain ⟨nlbl, npre, nens⟩ := ni
  cases npre with
  | false =>
    cases active with
    | some a => exact h
    | none => exact deliveryInv_startNext _ h
  | true =>
    cases active with
    | some a =>
      obtain ⟨asrc, asess, ai⟩ := a
      obtain ⟨albl, apre, aens⟩ := ai
      cases aens with
      | true => exact h
      | false =>
        show DeliveryInv (startNext (LabelDelivery.mk none
          (keepEnsured queue ++ [DeliveryOrder.mk nsrc nsess
            (DeliveryInstructions.mk nlbl true nens)])
          (supp ++ supplantPairs (DeliveryOrder.mk nsrc nsess
            (DeliveryInstructions.mk nlbl true nens)) queue ++
            [(asrc, nsrc, nsess)])
          (log ++ [.finished asrc])))
        apply deliveryInv_startNext
        unfold DeliveryInv at h ⊢
        rw [startedCount_append, finishedCount_append]
        simp [startedCount, finishedCount] at h ⊢
        omega
    | none => exact deliveryInv_startNext _ h

theorem deliveryInv_finishActive (st : LabelDelivery) (h : DeliveryInv st) :
    DeliveryInv (finishActive st) := by
  obtain ⟨active, queue, supp, log⟩ := st
  cases active with
  | none => exact h
  | some a =>
    show DeliveryInv (startNext (LabelDelivery.mk none queue supp
      (log ++ [.finished a.source])))
    apply deliveryInv_startNext
    unfold DeliveryInv at h ⊢
    rw [startedCount_append, finishedCount_append]
    simp [startedCount, finishedCount] at h ⊢
    omega

theorem deliveryInv_reachable (st : LabelDelivery)
    (h : ReachableDelivery st) : DeliveryInv st := by
  induction h with
  | init => simp [DeliveryInv, startedCount, finishedCount]
  | step hr hstep ih =>
    cases hstep with
    | deliver new st0 => exact deliveryInv_deliver _ _ ih
    | finish st0 => exact deliveryInv_finishActive _ ih

theorem startNext_supplanted (st : LabelDelivery) :
    (startNext st).supplanted = st.supplanted := by
  obtain ⟨active, queue, supp, log⟩ := st
  cases active <;> cases queue <;> rfl

/-- C8: for two requests sharing a delivery label at one provider — (i) a
later `preempt()` request cancels an unfinished earlier request that does
not carry `ensure()` (whether in flight or queued) with cause
`Supplanted`; (ii) if the earlier in-flight request carries `ensure()`,
it keeps executing and the preemptive request is queued after it (and
after every other ensured request) instead, only the non-ensured queue
entries being supplanted; (iii) in every reachable delivery state, at most
one request's execution window is open, so two same-labeled requests never
execute simultaneously. -/
theorem delivery_label_preemption_exclusive (new earlier a : DeliveryOrder)
    (st st' : LabelDelivery) :
    (new.instructions.preempt = true → st.active = some a →
      a.instructions.ensure = false →
      (a.source, new.source, new.session) ∈ (deliver new st).supplanted) ∧
    (new.instructions.preempt = true → earlier ∈ st.queue →
      earlier.instructions.ensure = false →
      (earlier.source, new.source, new.session) ∈
        (deliver new st).supplanted) ∧
    (new.instructions.preempt = true → st.active = some a →
      a.instructions.ensure = true →
      (deliver new st).active = some a ∧
      (deliver new st).queue = keepEnsured st.queue ++ [new] ∧
      (deliver new st).supplanted =
        st.supplanted ++ supplantPairs new st.queue) ∧
    (ReachableDelivery st' →
      startedCount st'.log ≤ finishedCount st'.log + 1) := by
  refine ⟨?_, ?_, ?_, ?_⟩
  · intro hp ha he
    obtain ⟨active, queue, supp, log⟩ := st
    have ha' : active = some a := ha
    subst ha'
    obtain ⟨asrc, asess, ai⟩ := a
    obtain ⟨albl, apre, aens⟩ := ai
    have he' : aens = false := he
    subst he'
    unfold deliver
    rw [hp]
    show (asrc, new.source, new.session) ∈
      (startNext (LabelDelivery.mk none (keepEnsured queue ++ [new])
        (supp ++ supplantPairs new queue ++ [(asrc, new.source, new.session)])
        (log ++ [.finished asrc]))).supplanted
    rw [startNext_supplanted]
    simp
  · intro hp hq he
    obtain ⟨active, queue, supp, log⟩ := st
    have hq' : earlier ∈ queue := hq
    have hdrop : earlier ∈ droppedOrders queue :=
      List.mem_filter.mpr ⟨hq', by simp [he]⟩
    have hmem : (earlier.source, new.source, new.session) ∈
        supplantPairs new queue :=
      List.mem_map.mpr ⟨earlier, hdrop, rfl⟩
    unfold deliver
    rw [hp]
    cases active with
    | some b =>
      obtain ⟨bsrc, bsess, bi⟩ := b
      obtain ⟨blbl, bpre, bens⟩ := bi
      cases bens with
      | true =>
        show (earlier.source, new.source, new.session) ∈
          supp ++ supplantPairs new queue
        exact List.mem_append.mpr (Or.inr hmem)
      | false =>
        show (earlier.source, new.source, new.session) ∈
          (startNext (LabelDelivery.mk none (keepEnsured queue ++ [new])
            (supp ++ supplantPairs new queue ++
              [(bsrc, new.source, new.session)])
            (log ++ [.finished bsrc]))).supplanted
        rw [startNext_supplanted]
        refine List.mem_append.mpr (Or.inl ?_)
        exact List.mem_append.mpr (Or.inr hmem)
    | none =>
      show (earlier.source, new.source, new.session) ∈
        (startNext (LabelDelivery.mk none (keepEnsured queue ++ [new])
          (supp ++ supplantPairs new queue) log)).supplanted
      rw [startNext_supplanted]
      exact List.mem_append.mpr (Or.inr hmem)
  · intro hp ha he
    obtain ⟨active, queue, supp, log⟩ := st
    have ha' : active = some a := ha
    subst ha'
    obtain ⟨asrc, asess, ai⟩ := a
    obtain ⟨albl, apre, aens⟩ := ai
    have he' : aens = true := he
    subst he'
    unfold deliver
    rw [hp]
    exact ⟨rfl, rfl, rfl⟩
  · intro hreach
    have h := deliveryInv_reachable st' hreach
    unfold DeliveryInv at h
    rcases hact : st'.active with _ | b <;> rw [hact] at h <;>
      simp at h <;> omega

theorem delivery_label_preemption_exclusive_witness :
    (1, 2, 200) ∈
      (deliver (DeliveryOrder.mk 2 200 (DeliveryInstructions.mk 0 true false))
        (deliver (DeliveryOrder.mk 1 100 (DeliveryInstructions.mk 0 false false))
          (LabelDelivery.mk none [] [] []))).supplanted := by
  exact (delivery_label_preemption_exclusive
    (DeliveryOrder.mk 2 200 (DeliveryInstructions.mk 0 true false))
    (DeliveryOrder.mk 1 100 (DeliveryInstructions.mk 0 false false))
    (DeliveryOrder.mk 1 100 (DeliveryInstructions.mk 0 false false))
    (deliver (DeliveryOrder.mk 1 100 (DeliveryInstructions.mk 0 false false))
      (LabelDelivery.mk none [] [] []))
    (LabelDelivery.mk none [] [] [])).1 rfl (by decide) rfl

/-! ## Claim C5 — two-phase cleanup of active tasks
(`src/src/operation/operate_task.rs`: `ActiveTasksStorage::cleanup`
lines 238-259, `OperateTask::cleanup` lines 172-217)

`ActiveTasksStorage::cleanup` scans the owner's active-task list: every
task of the session is sent to `OperateTask::cleanup`, which spawns a
detached cancel-and-await of the underlying computation and queues a
deferred closure on the channel; `cleanup_ready` stays true only when no
task matched, in which case `notify_cleaned` fires immediately.  Each
deferred closure, once the computation has really stopped, removes its
task from the owner's list (`retain`), fires `notify_cleaned` iff no
other task of the same session remains, and despawns the task node. -/

/-- The owner node's state during per-session cleanup: the
`ActiveTasksStorage` list, the number of `notify_cleaned` calls issued,
and the task nodes despawned so far. -/
structure CleanupState where
  list : List ActiveTask
  notified : Nat
  despawned : List Entity
deriving Repr, DecidableEq

/-- The task ids in an active-task list that belong to a session — the
`to_cleanup` collection of `ActiveTasksStorage::cleanup`. -/
def sessionIds (session : Entity) : List ActiveTask → List Entity
  | [] => []
  | t :: rest =>
    if t.session = session then t.task_id :: sessionIds session rest
    else sessionIds session rest

/-- `ActiveTasksStorage::cleanup` (lines 238-259): collect the session's
tasks into `to_cleanup` (each is cleaned via `OperateTask::cleanup`, so a
deferred confirmation is spawned for it); `cleanup_ready` is true iff
there are none, and then `notify_cleaned` fires immediately
(synchronously).  Returns the new state and the tasks whose confirmations
are now pending. -/
def ActiveTasksStorage.cleanup (session : Entity) (st : CleanupState) :
    CleanupState × List Entity :=
  let to_cleanup := sessionIds session st.list
  if to_cleanup.isEmpty then
    ({ st with notified := st.notified + 1 }, to_cleanup)
  else
    (st, to_cleanup)

/-- The deferred closure spawned by `OperateTask::cleanup` (lines 179-212),
run once the task's computation has confirmed its cancellation: remove the
task from the owner's list (`retain`), call `notify_cleaned` iff no other
task of the same session remains in the list, and despawn the task node. -/
def confirmStopped (session task_id : Entity) (st : CleanupState) :
    CleanupState :=
  let rest := st.list.filter (fun t => !(t.task_id == task_id))
  let ready := rest.all (fun t => !(t.session == session))
  { list := rest,
    notified := st.notified + (if ready then 1 else 0),
    despawned := st.despawned ++ [task_id] }

/-- Run the deferred confirmations in the order the channel delivers them. -/
def runConfirms (session : Entity) (cs : List Entity) (st : CleanupState) :
    CleanupState :=
  cs.foldl (fun s id => confirmStopped session id s) st

theorem sessionIds_filter_ne (session c : Entity) (l : List ActiveTask) :
    sessionIds session (l.filter (fun t => !(t.task_id == c))) =
      (sessionIds session l).filter (fun id => !(id == c)) := by
  induction l with
  | nil => rfl
  | cons t rest ih =>
    by_cases h1 : t.task_id = c <;> by_cases h2 : t.session = session <;>
      simp [sessionIds, List.filter_cons, h1, h2, ih]

theorem all_not_session_iff (session : Entity) (l : List ActiveTask) :
    l.all (fun t => !(t.session == session)) = true ↔
      sessionIds session l = [] := by
  induction l with
  | nil => simp [sessionIds]
  | cons t rest ih =>
    by_cases h : t.session = session <;> simp [sessionIds, h, ih]

theorem mem_sessionIds_filter (c id : Entity) (m : List Entity) :
    id ∈ m.filter (fun x => !(x == c)) ↔ id ∈ m ∧ id ≠ c := by
  simp [List.mem_filter]

theorem runConfirms_notified (session : Entity) (cs : List Entity) :
    ∀ st : CleanupState, cs.Nodup →
      (∀ id ∈ cs, id ∈ sessionIds session st.list) →
      (runConfirms session cs st).notified = st.notified +
        (if sessionIds session st.list ≠ [] ∧
            (∀ id ∈ sessionIds session st.list, id ∈ cs) then 1 else 0) := by
  induction cs with
  | nil =>
    intro st _ _
    rw [if_neg]
    · rfl
    · rintro ⟨hne, hsub⟩
      cases hm : sessionIds session st.list with
      | nil => exact hne hm
      | cons x xs => exact absurd (hsub x (by rw [hm]; exact List.mem_cons_self x xs)) (by simp)
  | cons c cs' ih =>
    intro st hnodup hsub
    have hcn : c ∉ cs' := (List.nodup_cons.mp hnodup).1
    have hnodup' : cs'.Nodup := (List.nodup_cons.mp hnodup).2
    have hcM : c ∈ sessionIds session st.list :=
      hsub c (List.mem_cons_self c cs')
    have hstep : runConfirms session (c :: cs') st =
        runConfirms session cs' (confirmStopped session c st) := rfl
    have hlist : (confirmStopped session c st).list =
        st.list.filter (fun t => !(t.task_id == c)) := rfl
    have hM' : sessionIds session (confirmStopped session c st).list =
        (sessionIds session st.list).filter (fun id => !(id == c)) := by
      rw [hlist, sessionIds_filter_ne]
    have hsub' : ∀ id ∈ cs',
        id ∈ sessionIds session (confirmStopped session c st).list := by
      intro id hid
      rw [hM', mem_sessionIds_filter]
      refine ⟨hsub id (List.mem_cons_of_mem c hid), ?_⟩
      intro hidc
      exact hcn (hidc ▸ hid)
    rw [hstep, ih _ hnodup' hsub']
    by_cases hMe : (sessionIds session st.list).filter (fun id => !(id == c)) = []
    · have hready : (st.list.filter (fun t => !(t.task_id == c))).all
          (fun t => !(t.session == session)) = true := by
        rw [all_not_session_iff, sessionIds_filter_ne, hMe]
      have hnot : (confirmStopped session c st).notified = st.notified + 1 := by
        simp [confirmStopped, hready]
      rw [hM', hMe, hnot]
      rw [if_neg (by simp), if_pos]
      constructor
      · intro h0
        rw [h0] at hcM
        exact absurd hcM (by simp)
      · intro id hid
        by_cases hidc : id = c
        · exact hidc ▸ List.mem_cons_self c cs'
        · have : id ∈ (sessionIds session st.list).filter (fun x => !(x == c)) :=
            (mem_sessionIds_filter c id _).mpr ⟨hid, hidc⟩
          rw [hMe] at this
          exact absurd this (by simp)
    · have hready : (st.list.filter (fun t => !(t.task_id == c))).all
          (fun t => !(t.session == session)) = false := by
        cases hall : (st.list.filter (fun t => !(t.task_id == c))).all
            (fun t => !(t.session == session)) with
        | false => rfl
        | true =>
          rw [all_not_session_iff, sessionIds_filter_ne] at hall
          exact absurd hall hMe
      have hnot : (confirmStopped session c st).notified = st.notified := by
        simp [confirmStopped, hready]
      rw [hM', hnot]
      by_cases hcov : ∀ id ∈ (sessionIds session st.list).filter
          (fun id => !(id == c)), id ∈ cs'
      · rw [if_pos ⟨hMe, hcov⟩, if_pos]
        constructor
        · intro h0
          rw [h0] at hcM
          exact absurd hcM (by simp)
        · intro id hid
          by_cases hidc : id = c
          · exact hidc ▸ List.mem_cons_self c cs'
          · exact List.mem_cons_of_mem c
              (hcov id ((mem_sessionIds_filter c id _).mpr ⟨hid, hidc⟩))
      · rw [if_neg (by rintro ⟨_, h⟩; exact hcov h), if_neg]
        rintro ⟨_, hall⟩
        apply hcov
        intro id hid
        obtain ⟨hidM, hidc⟩ := (mem_sessionIds_filter c id _).mp hid
        rcases List.mem_cons.mp (hall id hidM) with h | h
        · exact absurd h hidc
        · exact h

theorem runConfirms_despawned (session : Entity) (cs : List Entity) :
    ∀ st : CleanupState,
      (runConfirms session cs st).despawned = st.despawned ++ cs := by
  induction cs with
  | nil => intro st; simp [runConfirms]
  | cons c cs' ih =>
    intro st
    have hstep : runConfirms session (c :: cs') st =
        runConfirms session cs' (confirmStopped session c st) := rfl
    rw [hstep, ih]
    simp [confirmStopped]

/-- C5: cleaning up a session at a node with an active-task list —
(i) the confirmations spawned are exactly the session's tasks; (ii) with
zero active tasks for the session, `notify_cleaned` fires immediately
(synchronously) and the list is untouched; (iii) with tasks outstanding,
nothing is notified at cleanup time; (iv) as long as at least one of the
session's tasks has not yet confirmed that its computation stopped, no
`notify_cleaned` is issued; (v) once all of them have confirmed (in any
order), `notify_cleaned` has been issued exactly once; and (vi) every
confirmed task node is despawned exactly once (the despawn log grows by
exactly the confirmation list), so no task node is leaked. -/
theorem active_tasks_cleanup_notify_exactly_when_done (session : Entity)
    (st : CleanupState) (cs : List Entity) :
    ((ActiveTasksStorage.cleanup session st).2 = sessionIds session st.list) ∧
    (sessionIds session st.list = [] →
      (ActiveTasksStorage.cleanup session st).1.notified = st.notified + 1 ∧
      (ActiveTasksStorage.cleanup session st).1.list = st.list) ∧
    (sessionIds session st.list ≠ [] →
      (ActiveTasksStorage.cleanup session st).1 = st) ∧
    (cs.Nodup → (∀ id ∈ cs, id ∈ sessionIds session st.list) →
      (∃ m ∈ sessionIds session st.list, m ∉ cs) →
      (runConfirms session cs st).notified = st.notified) ∧
    (cs.Nodup → (∀ id ∈ cs, id ∈ sessionIds session st.list) →
      (∀ id ∈ sessionIds session st.list, id ∈ cs) →
      sessionIds session st.list ≠ [] →
      (runConfirms session cs st).notified = st.notified + 1) ∧
    ((runConfirms session cs st).despawned = st.despawned ++ cs) := by
  refine ⟨?_, ?_, ?_, ?_, ?_, ?_⟩
  · unfold ActiveTasksStorage.cleanup
    by_cases h : (sessionIds session st.list).isEmpty <;> simp [h]
  · intro h
    unfold ActiveTasksStorage.cleanup
    rw [h]
    exact ⟨rfl, rfl⟩
  · intro h
    unfold ActiveTasksStorage.cleanup
    rw [if_neg]
    simpa using h
  · intro hnodup hsub hex
    obtain ⟨m, hm, hmc⟩ := hex
    rw [runConfirms_notified session cs st hnodup hsub, if_neg]
    · rfl
    · rintro ⟨_, hall⟩
      exact hmc (hall m hm)
  · intro hnodup hsub hall hne
    rw [runConfirms_notified session cs st hnodup hsub, if_pos ⟨hne, hall⟩]
  · exact runConfirms_despawned session cs st

theorem active_tasks_cleanup_notify_exactly_when_done_witness :
    (ActiveTasksStorage.cleanup 5
      (CleanupState.mk [ActiveTask.mk 21 5, ActiveTask.mk 22 5,
        ActiveTask.mk 30 6] 0 [])).2 = [21, 22] ∧
    (runConfirms 5 [22]
      (CleanupState.mk [ActiveTask.mk 21 5, ActiveTask.mk 22 5,
        ActiveTask.mk 30 6] 0 [])).notified = 0 ∧
    (runConfirms 5 [22, 21]
      (CleanupState.mk [ActiveTask.mk 21 5, ActiveTask.mk 22 5,
        ActiveTask.mk 30 6] 0 [])).notified = 1 ∧
    (runConfirms 5 [22, 21]
      (CleanupState.mk [ActiveTask.mk 21 5, ActiveTask.mk 22 5,
        ActiveTask.mk 30 6] 0 [])).despawned = [22, 21] := by
  refine ⟨?_, ?_, ?_, ?_⟩
  · have h := (active_tasks_cleanup_notify_exactly_when_done 5
      (CleanupState.mk [ActiveTask.mk 21 5, ActiveTask.mk 22 5,
        ActiveTask.mk 30 6] 0 []) []).1
    simpa using h
  · have h := (active_tasks_cleanup_notify_exactly_when_done 5
      (CleanupState.mk [ActiveTask.mk 21 5, ActiveTask.mk 22 5,
        ActiveTask.mk 30 6] 0 []) [22]).2.2.2.1 (by decide) (by decide)
      ⟨21, by decide, by decide⟩
    simpa using h
  · have h := (active_tasks_cleanup_notify_exactly_when_done 5
      (CleanupState.mk [ActiveTask.mk 21 5, ActiveTask.mk 22 5,
        ActiveTask.mk 30 6] 0 []) [22, 21]).2.2.2.2.1 (by decide) (by decide)
      (by decide) (by decide)
    simpa using h
  · have h := (active_tasks_cleanup_notify_exactly_when_done 5
      (CleanupState.mk [ActiveTask.mk 21 5, ActiveTask.mk 22 5,
        ActiveTask.mk 30 6] 0 []) [22, 21]).2.2.2.2.2
    simpa using h

end BevyImpulse
